import Mathlib

/-!
Verification of the Eidos core (Ru1vly/Eidos).

Rust strings (`&str`) are modelled as `List Char`; `str::contains` is a substring
test, `str::to_lowercase`/`to_uppercase` are per-character case maps (the inputs of
interest are ASCII), `str::trim` drops whitespace at both ends, and
`split_whitespace().next().unwrap_or("")` is the first whitespace-separated token.
Fallible operations return `Except (List Char) α` (errors carried as text, as in the
source's string-formatted errors).

Embedded modules:
- `src/lib_core/src/validation.rs` (`Validation` namespace): the public validator.
- `src/lib_core/src/lib.rs`: `Core` with its generation pipeline, the private
  six-substring guard, `execute_command` and `run`.  Shell execution is modelled by
  passing an explicit `sh -c` oracle and recording the trace of commands handed to it.
- `src/lib_core/src/alternatives.rs`: `Core.generate_alternatives`.
- `src/src/main.rs`: the single-slot model cache and the `Commands::Core` display path.
-/

/-- Models Rust `str::to_lowercase` (per-character; exact on ASCII input). -/
def toLowerStr (s : List Char) : List Char :=
  s.map Char.toLower

/-- Models Rust `str::to_uppercase` (per-character; exact on ASCII input). -/
def toUpperStr (s : List Char) : List Char :=
  s.map Char.toUpper

/-- Models Rust `str::trim`: drop whitespace from both ends. -/
def trimStr (s : List Char) : List Char :=
  ((s.dropWhile Char.isWhitespace).reverse.dropWhile Char.isWhitespace).reverse

/-- Models Rust `split_whitespace().next().unwrap_or("")`: the first
whitespace-separated token, or the empty string. -/
def firstWord (s : List Char) : List Char :=
  (s.dropWhile Char.isWhitespace).takeWhile (fun c => !c.isWhitespace)

/-- Models Rust `str::contains(pat)`: `pat` occurs as a contiguous substring of `s`. -/
def containsSub (s pat : List Char) : Bool :=
  match s with
  | [] => pat.isEmpty
  | _ :: rest => pat.isPrefixOf s || containsSub rest pat

theorem containsSub_iff (s pat : List Char) : containsSub s pat = true ↔ pat <:+: s := by
  induction s with
  | nil =>
    simp [containsSub, List.isEmpty_iff, List.infix_nil]
  | cons c rest ih =>
    rw [containsSub, Bool.or_eq_true, List.isPrefixOf_iff_prefix, ih,
      List.infix_cons_iff]

theorem containsSub_eq_false_iff (s pat : List Char) :
    containsSub s pat = false ↔ ¬pat <:+: s := by
  rw [← containsSub_iff s pat]
  cases containsSub s pat <;> simp

theorem trimStr_isInfix (s : List Char) : trimStr s <:+: s := by
  have h1 : s.dropWhile Char.isWhitespace <:+ s := List.dropWhile_suffix _
  have h2 : (s.dropWhile Char.isWhitespace).reverse.dropWhile Char.isWhitespace <:+
      (s.dropWhile Char.isWhitespace).reverse := List.dropWhile_suffix _
  have h3 : trimStr s <+: s.dropWhile Char.isWhitespace := by
    rw [trimStr, ← List.reverse_suffix, List.reverse_reverse]
    exact h2
  exact h3.isInfix.trans h1.isInfix

/-- A pattern all of whose characters are fixed by lowercasing stays an infix after
`to_lowercase`. -/
theorem infix_toLowerStr_of_fixed (p s : List Char) (hp : p.map Char.toLower = p)
    (h : p <:+: s) : p <:+: toLowerStr s := by
  rcases h with ⟨u, v, rfl⟩
  refine ⟨u.map Char.toLower, v.map Char.toLower, ?_⟩
  simp [toLowerStr, hp]

theorem toLower_eq_self_of_isWhitespace (c : Char) (h : c.isWhitespace = true) :
    c.toLower = c := by
  simp [Char.isWhitespace] at h
  rcases h with ((h | h) | h) | h <;> subst h <;> decide

namespace Validation

/-- Whitelist of safe base commands (validation.rs `allowed_commands`, read-only
commands that do not modify system state). -/
def allowed_commands : List (List Char) :=
  ["ls".data, "pwd".data, "echo".data, "cat".data, "head".data, "tail".data,
    "grep".data, "find".data, "wc".data, "date".data, "whoami".data,
    "hostname".data, "uname".data, "df".data, "du".data, "free".data, "top".data,
    "ps".data, "which".data, "whereis".data, "file".data, "stat".data]

/-- Dangerous patterns that should never be allowed (validation.rs
`dangerous_patterns`). -/
def dangerous_patterns : List (List Char) :=
  ["rm".data, "rmdir".data, "dd".data, "mkfs".data, "fdisk".data,
    "shutdown".data, "reboot".data, "halt".data, "poweroff".data, "init".data,
    "kill".data, "killall".data, "pkill".data, "chown".data, "chmod".data,
    "chgrp".data, "useradd".data, "userdel".data, "groupadd".data,
    "groupdel".data, "passwd".data, "su".data, "sudo".data, "doas".data,
    "curl".data, "wget".data, "nc".data, "netcat".data, "telnet".data,
    "ssh".data, "scp".data, "sftp".data, "rsync".data, "mount".data,
    "umount".data, "mkswap".data, "swapon".data, "swapoff".data,
    "iptables".data, "ip6tables".data, "nft".data]

/-- Shell metacharacters and injection patterns (validation.rs
`shell_injection_patterns`; braces are written with hex escapes). -/
def shell_injection_patterns : List (List Char) :=
  ["`".data, "$(".data, "$\x7b".data, "$((".data, ">>".data, "<<<".data,
    "&>".data, "|&".data, "&&".data, "||".data, "|".data, ";".data, "\n".data,
    "\r".data, "\\".data, "\x27".data, "\x22".data, "*".data, "?".data,
    "[".data, "]".data, "\x7b".data, "\x7d".data, "!".data, "~".data,
    "^".data, "<(".data, ">(".data, "../".data, "/dev/".data, "/proc/".data,
    "/sys/".data, ">".data, "&".data]

/-- Stage 1 of validation.rs `is_safe_command`: a dangerous pattern occurs in the
lower-cased command, or the trimmed command starts with it, or the lower-cased
command contains `"/" + pattern`. -/
def dangerous_check (command : List Char) : Bool :=
  dangerous_patterns.any fun p =>
    containsSub (toLowerStr command) p
      || p.isPrefixOf (trimStr command)
      || containsSub (toLowerStr command) ('/' :: p)

/-- Stage 2 of validation.rs `is_safe_command`: the raw command contains a shell
injection pattern. -/
def injection_check (command : List Char) : Bool :=
  shell_injection_patterns.any fun p => containsSub command p

/-- Stage 3 of validation.rs `is_safe_command`: the first whitespace-separated word
of the lower-cased command is in the whitelist. -/
def whitelist_check (command : List Char) : Bool :=
  allowed_commands.contains (firstWord (toLowerStr command))

/-- Stage 4 of validation.rs `is_safe_command`: hex/octal escape introducers. -/
def encoding_check (command : List Char) : Bool :=
  containsSub command "\\x".data || containsSub command "\\0".data

/-- Stage 5 of validation.rs `is_safe_command`: IFS manipulation in the upper-cased
command. -/
def ifs_check (command : List Char) : Bool :=
  containsSub (toUpperStr command) "IFS".data

/-- validation.rs `is_safe_command`: the five checks applied in source order,
first match rejects. -/
def is_safe_command (command : List Char) : Bool :=
  if dangerous_check command then false
  else if injection_check command then false
  else if !whitelist_check command then false
  else if encoding_check command then false
  else if ifs_check command then false
  else true

theorem ite_chain (a b c d e : Bool) :
    (if a then false else if b then false else if !c then false
      else if d then false else if e then false else true)
      = (!a && !b && c && !d && !e) := by
  cases a <;> cases b <;> cases c <;> cases d <;> cases e <;> rfl

theorem is_safe_command_eq (command : List Char) :
    is_safe_command command
      = (!dangerous_check command && !injection_check command
          && whitelist_check command && !encoding_check command
          && !ifs_check command) := by
  unfold is_safe_command
  exact ite_chain _ _ _ _ _

end Validation

/-- Claim C3: for every string whose leading whitespace-trimmed token (compared
case-insensitively) is not an exact member of the fixed allow-list,
`Validation.is_safe_command` returns false, regardless of the earlier checks;
in particular the empty string and every whitespace-only string yield false. -/
theorem C3_whitelist_gate :
    (∀ s : List Char,
        Validation.allowed_commands.contains (firstWord (toLowerStr s)) = false →
        Validation.is_safe_command s = false)
    ∧ Validation.is_safe_command [] = false
    ∧ (∀ s : List Char, (∀ c ∈ s, c.isWhitespace = true) →
        Validation.is_safe_command s = false) := by
  refine ⟨?_, by decide, ?_⟩
  · intro s h
    have hw : Validation.whitelist_check s = false := h
    simp [Validation.is_safe_command_eq, hw]
  · intro s h
    have hfw : firstWord (toLowerStr s) = [] := by
      have hall : ∀ c ∈ toLowerStr s, c.isWhitespace = true := by
        intro c hc
        rcases List.mem_map.1 hc with ⟨a, ha, rfl⟩
        rw [toLower_eq_self_of_isWhitespace a (h a ha)]
        exact h a ha
      rw [firstWord, List.dropWhile_eq_nil_iff.2 hall]
      rfl
    have hw : Validation.whitelist_check s = false := by
      rw [Validation.whitelist_check, hfw]
      decide
    simp [Validation.is_safe_command_eq, hw]

/-- Witness for C3 at the concrete inputs "python script.py", "" and "   ". -/
theorem C3_witness :
    Validation.is_safe_command "python script.py".data = false
    ∧ Validation.is_safe_command [] = false
    ∧ Validation.is_safe_command "   ".data = false :=
  ⟨C3_whitelist_gate.1 _ (by decide), C3_whitelist_gate.2.1,
    C3_whitelist_gate.2.2 _ (by decide)⟩

/-- Claim C4: for every string containing a member of the fixed
shell-metacharacter/injection set as a substring of the raw input,
`Validation.is_safe_command` returns false, even if the leading token is
allow-listed. -/
theorem C4_metachar_reject (s p : List Char)
    (hp : p ∈ Validation.shell_injection_patterns) (hs : p <:+: s) :
    Validation.is_safe_command s = false := by
  have hb : Validation.injection_check s = true := by
    rw [Validation.injection_check, List.any_eq_true]
    refine ⟨p, hp, ?_⟩
    exact (containsSub_iff s p).2 hs
  simp [Validation.is_safe_command_eq, hb]

/-- Witness for C4 at the concrete input "ls *" and pattern "*" (whose leading
token "ls" is allow-listed). -/
theorem C4_witness :
    Validation.allowed_commands.contains (firstWord (toLowerStr "ls *".data)) = true
    ∧ Validation.is_safe_command "ls *".data = false := by
  have hinf : "*".data <:+: "ls *".data := by decide
  exact ⟨by decide, C4_metachar_reject _ "*".data (by decide) hinf⟩

/-- Counterexample to claim C5 as stated: "ls ifs" has an allow-listed leading
token, contains no deny-listed token as a case-insensitive substring and none of
the shell metacharacters, yet `Validation.is_safe_command` returns false (the
later IFS environment-manipulation check rejects it). -/
theorem C5_counterexample :
    Validation.allowed_commands.contains (firstWord (toLowerStr "ls ifs".data)) = true
    ∧ (Validation.dangerous_patterns.any fun p =>
        containsSub (toLowerStr "ls ifs".data) p) = false
    ∧ (Validation.shell_injection_patterns.any fun p =>
        containsSub "ls ifs".data p) = false
    ∧ Validation.is_safe_command "ls ifs".data = false := by
  decide

/-- Claim C5 (amended): for every string whose leading whitespace-trimmed token is
in the fixed allow-list, that contains no deny-listed token as a case-insensitive
substring, that contains none of the fixed shell metacharacters, and whose
upper-cased text does not contain "IFS" as a substring, `Validation.is_safe_command`
returns true. -/
theorem C5_allowlist_accept (s : List Char)
    (hallow : Validation.allowed_commands.contains (firstWord (toLowerStr s)) = true)
    (hdeny : ∀ p ∈ Validation.dangerous_patterns, containsSub (toLowerStr s) p = false)
    (hmeta : ∀ p ∈ Validation.shell_injection_patterns, containsSub s p = false)
    (hifs : containsSub (toUpperStr s) "IFS".data = false) :
    Validation.is_safe_command s = true := by
  have hlowerfix : ∀ p ∈ Validation.dangerous_patterns, p.map Char.toLower = p := by
    decide
  have hdang : Validation.dangerous_check s = false := by
    rw [Validation.dangerous_check, List.any_eq_false]
    intro p hp
    have h1 : containsSub (toLowerStr s) p = false := hdeny p hp
    have h2 : p.isPrefixOf (trimStr s) = false := by
      cases hb : p.isPrefixOf (trimStr s) with
      | false => rfl
      | true =>
        exfalso
        have hpre := List.isPrefixOf_iff_prefix.1 hb
        have hx : p <:+: toLowerStr s :=
          infix_toLowerStr_of_fixed p s (hlowerfix p hp)
            (hpre.isInfix.trans (trimStr_isInfix s))
        have h3 := (containsSub_iff (toLowerStr s) p).2 hx
        rw [h1] at h3
        exact Bool.false_ne_true h3
    have h4 : containsSub (toLowerStr s) ('/' :: p) = false := by
      rw [containsSub_eq_false_iff]
      intro hinf
      have hsuf : p <:+ ('/' :: p) := ⟨['/'], rfl⟩
      have h3 := (containsSub_iff (toLowerStr s) p).2 (hsuf.isInfix.trans hinf)
      rw [h1] at h3
      exact Bool.false_ne_true h3
    simp [h1, h2, h4]
  have hinj : Validation.injection_check s = false := by
    rw [Validation.injection_check, List.any_eq_false]
    intro p hp
    rw [hmeta p hp]
    simp
  have hbs : containsSub s "\\".data = false := hmeta "\\".data (by decide)
  have henc : Validation.encoding_check s = false := by
    have hx : containsSub s "\\x".data = false := by
      rw [containsSub_eq_false_iff]
      intro hinf
      have hpr : "\\".data <+: "\\x".data := ⟨['x'], rfl⟩
      have h1 := (containsSub_iff s "\\".data).2 (hpr.isInfix.trans hinf)
      rw [hbs] at h1
      exact Bool.false_ne_true h1
    have h0 : containsSub s "\\0".data = false := by
      rw [containsSub_eq_false_iff]
      intro hinf
      have hpr : "\\".data <+: "\\0".data := ⟨['0'], rfl⟩
      have h1 := (containsSub_iff s "\\".data).2 (hpr.isInfix.trans hinf)
      rw [hbs] at h1
      exact Bool.false_ne_true h1
    rw [Validation.encoding_check, hx, h0]
    rfl
  have hifsc : Validation.ifs_check s = false := hifs
  have hwl : Validation.whitelist_check s = true := hallow
  simp [Validation.is_safe_command_eq, hdang, hinj, hwl, henc, hifsc]

/-- Witness for (amended) C5 at the concrete inputs "ls -la", "pwd" and
"cat file.txt". -/
theorem C5_witness :
    Validation.is_safe_command "ls -la".data = true
    ∧ Validation.is_safe_command "pwd".data = true
    ∧ Validation.is_safe_command "cat file.txt".data = true :=
  ⟨C5_allowlist_accept _ (by decide) (by decide) (by decide) (by decide),
    C5_allowlist_accept _ (by decide) (by decide) (by decide) (by decide),
    C5_allowlist_accept _ (by decide) (by decide) (by decide) (by decide)⟩

/-- The loaded model and tokenizer of lib.rs `Core`, as oracles: `encode` is
`Tokenizer::encode` producing u32 token ids, `model` is `SimplePlan::run` on i64
tensors, `decode` is `Tokenizer::decode`. -/
structure Core where
  encode : List Char → Except (List Char) (List Nat)
  model : List Int → Except (List Char) (List Int)
  decode : List Nat → Except (List Char) (List Char)

/-- lib.rs `Core::generate_command`: encode the input, widen the u32 ids to i64,
run the model, truncate the output ids back to u32 (`id as u32`, i.e. the value
modulo 2^32), and decode. -/
def Core.generate_command (self : Core) (input : List Char) :
    Except (List Char) (List Char) := do
  let encoding ← self.encode input
  let result ← self.model (encoding.map fun id => (id : Int))
  let output_ids := result.map fun id => (id % (2 : Int) ^ 32).toNat
  self.decode output_ids

/-- lib.rs `Core::is_safe_command` forbidden substrings. -/
def forbidden : List (List Char) :=
  ["rm -rf".data, "sudo".data, ">".data, "|".data, "&".data, ";".data]

/-- lib.rs `Core::is_safe_command` (the private guard in lib.rs, distinct from
validation.rs): safe iff none of the six forbidden substrings occurs.  The
source's unused `&self` receiver is dropped. -/
def Core.is_safe_command (command : List Char) : Bool :=
  !(forbidden.any fun p => containsSub command p)

/-- The exit status and captured output of an external `sh -c` invocation
(`std::process::Output`). -/
structure ProcOutput where
  success : Bool
  stdout : List Char
  stderr : List Char

/-- lib.rs `Core::execute_command`.  The spawning of `sh -c <command>` is modelled
by the `shell` oracle; the second component is the trace of command strings that
were handed to the shell (empty iff no process was spawned).  The source's unused
`&self` receiver is dropped. -/
def Core.execute_command (shell : List Char → Except (List Char) ProcOutput)
    (command : List Char) : Except (List Char) (List Char) × List (List Char) :=
  if Core.is_safe_command command then
    match shell command with
    | .error e => (.error e, [command])
    | .ok out =>
      if out.success then (.ok out.stdout, [command])
      else (.error out.stderr, [command])
  else
    (.error "Command is not allowed.".data, [])

/-- lib.rs `Core::run`: generate a command from the input and pass it straight to
`execute_command`. -/
def Core.run (self : Core) (shell : List Char → Except (List Char) ProcOutput)
    (input : List Char) : Except (List Char) (List Char) × List (List Char) :=
  match Core.generate_command self input with
  | .ok command => Core.execute_command shell command
  | .error e => (.error ("Failed to generate command: ".data ++ e), [])

/-- A model whose pipeline decodes every output to the benign command "ls". -/
def demoCore : Core where
  encode := fun _ => .ok [0]
  model := fun ids => .ok ids
  decode := fun _ => .ok "ls".data

/-- A shell oracle standing for `sh -c` succeeding with empty output. -/
def demoShell : List Char → Except (List Char) ProcOutput :=
  fun _ => .ok ⟨true, [], []⟩

/-- Claim C1 is violated by lib.rs: `Core::run` hands the generated candidate to
`Core::execute_command`, which spawns `sh -c <command>` whenever the six-substring
guard passes — here the generated command "ls" is executed by the core, not merely
returned after validation. -/
theorem C1_run_executes_generated_command :
    Core.generate_command demoCore "list files".data = .ok "ls".data
    ∧ (Core.run demoCore demoShell "list files".data).2 = ["ls".data] := by
  constructor <;> rfl

/-- Claim C2: the lib.rs guard accepts every string containing none of the six
forbidden substrings — in particular "rm file.txt", "mkfs /dev/sda1" and
"curl http://example.com" — and for every accepted string `execute_command`
reaches the branch that passes the string to the shell. -/
theorem C2_weak_guard :
    (∀ s : List Char, (∀ p ∈ forbidden, containsSub s p = false) →
      Core.is_safe_command s = true)
    ∧ Core.is_safe_command "rm file.txt".data = true
    ∧ Core.is_safe_command "mkfs /dev/sda1".data = true
    ∧ Core.is_safe_command "curl http://example.com".data = true
    ∧ ∀ (shell : List Char → Except (List Char) ProcOutput) (s : List Char),
        Core.is_safe_command s = true →
        (Core.execute_command shell s).2 = [s] := by
  refine ⟨?_, by decide, by decide, by decide, ?_⟩
  · intro s h
    rw [Core.is_safe_command]
    have : (forbidden.any fun p => containsSub s p) = false := by
      rw [List.any_eq_false]
      intro p hp
      rw [h p hp]
      simp
    rw [this]
    rfl
  · intro shell s hs
    rw [Core.execute_command, if_pos hs]
    cases hsh : shell s with
    | error e => rfl
    | ok out =>
      rcases out with ⟨b, so, se⟩
      cases b <;> rfl

/-- Witness for C2 at the concrete input "rm file.txt" with a concrete shell. -/
theorem C2_witness :
    Core.is_safe_command "rm file.txt".data = true
    ∧ (Core.execute_command demoShell "rm file.txt".data).2 = ["rm file.txt".data] :=
  ⟨C2_weak_guard.1 _ (by decide),
    C2_weak_guard.2.2.2.2 demoShell _ (C2_weak_guard.1 _ (by decide))⟩

/-- alternatives.rs: the fixed prompt-suffix variants tried after the base
command, in source order. -/
def variations (input : List Char) : List (List Char) :=
  [input ++ " with details".data, input ++ " verbose".data,
    input ++ " concise".data, input ++ " with all options".data,
    input ++ " simple".data]

/-- One iteration of the alternatives loop body: generate for the variant; on
success append the text iff it differs from the base and is not already present;
on failure keep the list unchanged. -/
def altStep (self : Core) (base : List Char) (alts : List (List Char))
    (v : List Char) : List (List Char) :=
  match Core.generate_command self v with
  | .ok cmd => if cmd ≠ base ∧ cmd ∉ alts then alts ++ [cmd] else alts
  | .error _ => alts

/-- The `for variation in variations.iter().take(count - 1)` loop of
alternatives.rs, including the `break` once the list reaches `count` elements. -/
def altLoop (self : Core) (base : List Char) (count : Nat) :
    List (List Char) → List (List Char) → List (List Char)
  | [], alts => alts
  | v :: vs, alts =>
    if count ≤ (altStep self base alts v).length then altStep self base alts v
    else altLoop self base count vs (altStep self base alts v)

/-- alternatives.rs `Core::generate_alternatives`: empty for count 0, a single
generation for count 1, otherwise the base command followed by deduplicated
variant generations, padded with the base command up to exactly `count`. -/
def Core.generate_alternatives (self : Core) (input : List Char) (count : Nat) :
    Except (List Char) (List (List Char)) :=
  if count = 0 then .ok []
  else if count = 1 then
    match Core.generate_command self input with
    | .ok cmd => .ok [cmd]
    | .error e => .error e
  else
    match Core.generate_command self input with
    | .error e => .error e
    | .ok base =>
      let alts := altLoop self base count ((variations input).take (count - 1)) [base]
      .ok (alts ++ List.replicate (count - alts.length) base)

theorem altStep_append (self : Core) (base : List Char) (alts : List (List Char))
    (v : List Char) : ∃ t, altStep self base alts v = alts ++ t := by
  rcases hgen : Core.generate_command self v with e | cmd
  · exact ⟨[], by simp [altStep, hgen]⟩
  · by_cases h : cmd ≠ base ∧ cmd ∉ alts
    · exact ⟨[cmd], by simp [altStep, hgen, h]⟩
    · exact ⟨[], by simp [altStep, hgen, h]⟩

theorem altStep_length_le (self : Core) (base : List Char) (alts : List (List Char))
    (v : List Char) : (altStep self base alts v).length ≤ alts.length + 1 := by
  rcases hgen : Core.generate_command self v with e | cmd
  · have heq : altStep self base alts v = alts := by simp [altStep, hgen]
    rw [heq]
    omega
  · by_cases h : cmd ≠ base ∧ cmd ∉ alts
    · have heq : altStep self base alts v = alts ++ [cmd] := by simp [altStep, hgen, h]
      rw [heq, List.length_append]
      simp
    · have heq : altStep self base alts v = alts := by simp [altStep, hgen, h]
      rw [heq]
      omega

theorem altLoop_append (self : Core) (base : List Char) (count : Nat) :
    ∀ (vs : List (List Char)) (alts : List (List Char)),
      ∃ t, altLoop self base count vs alts = alts ++ t := by
  intro vs
  induction vs with
  | nil =>
    intro alts
    exact ⟨[], (List.append_nil alts).symm⟩
  | cons v vs ih =>
    intro alts
    rcases altStep_append self base alts v with ⟨t0, ht0⟩
    rw [altLoop]
    by_cases h : count ≤ (altStep self base alts v).length
    · rw [if_pos h, ht0]
      exact ⟨t0, rfl⟩
    · rw [if_neg h]
      rcases ih (altStep self base alts v) with ⟨t1, ht1⟩
      rw [ht1, ht0, List.append_assoc]
      exact ⟨t0 ++ t1, rfl⟩

theorem altLoop_length_le (self : Core) (base : List Char) (count : Nat) :
    ∀ (vs : List (List Char)) (alts : List (List Char)),
      alts.length < count → (altLoop self base count vs alts).length ≤ count := by
  intro vs
  induction vs with
  | nil =>
    intro alts h
    exact Nat.le_of_lt h
  | cons v vs ih =>
    intro alts h
    have hstep : (altStep self base alts v).length ≤ count := by
      have := altStep_length_le self base alts v
      omega
    rw [altLoop]
    by_cases hc : count ≤ (altStep self base alts v).length
    · rw [if_pos hc]
      exact hstep
    · rw [if_neg hc]
      exact ih (altStep self base alts v) (by omega)

/-- Claim C6: `generate_alternatives` returns the empty sequence for count 0, a
singleton equal to `generate_command input` for count 1, and for every count > 1,
if the base generation succeeds, a sequence of length exactly `count` whose first
element is the base command. -/
theorem C6_alternatives_count (core : Core) (input c : List Char) :
    Core.generate_alternatives core input 0 = .ok []
    ∧ (Core.generate_command core input = .ok c →
        Core.generate_alternatives core input 1 = .ok [c])
    ∧ ∀ n : Nat, 1 < n → Core.generate_command core input = .ok c →
        (Core.generate_alternatives core input n).map List.length = .ok n
        ∧ (Core.generate_alternatives core input n).map List.head? = .ok (some c) := by
  refine ⟨rfl, ?_, ?_⟩
  · intro hg
    simp [Core.generate_alternatives, hg]
  · intro n hn hg
    have h0 : ¬n = 0 := by omega
    have h1 : ¬n = 1 := by omega
    rcases altLoop_append core c n ((variations input).take (n - 1)) [c] with ⟨t, ht⟩
    have hlen : (altLoop core c n ((variations input).take (n - 1)) [c]).length ≤ n :=
      altLoop_length_le core c n _ [c] (by simpa using hn)
    rw [Core.generate_alternatives, if_neg h0, if_neg h1, hg]
    constructor
    · simp only [Except.map]
      rw [List.length_append, List.length_replicate]
      have : (altLoop core c n ((variations input).take (n - 1)) [c]).length
          + (n - (altLoop core c n ((variations input).take (n - 1)) [c]).length) = n := by
        omega
      rw [this]
    · simp only [Except.map]
      rw [ht]
      rfl

/-- Witness for C6: a model generating "ls" for every prompt, at counts 0, 1, 3. -/
def altCore : Core where
  encode := fun _ => .ok [0]
  model := fun ids => .ok ids
  decode := fun _ => .ok "ls".data

theorem C6_witness :
    Core.generate_alternatives altCore "list".data 0 = .ok []
    ∧ Core.generate_alternatives altCore "list".data 1 = .ok ["ls".data]
    ∧ (Core.generate_alternatives altCore "list".data 3).map List.length = .ok 3
    ∧ (Core.generate_alternatives altCore "list".data 3).map List.head? = .ok (some "ls".data) :=
  ⟨(C6_alternatives_count altCore "list".data "ls".data).1,
    (C6_alternatives_count altCore "list".data "ls".data).2.1 rfl,
    ((C6_alternatives_count altCore "list".data "ls".data).2.2 3 (by decide) rfl).1,
    ((C6_alternatives_count altCore "list".data "ls".data).2.2 3 (by decide) rfl).2⟩

/-- Claim C7: for count >= 2, if the base generation succeeds then
`generate_alternatives` returns Ok with a full sequence of length exactly `count`,
for every model — in particular no matter how many of the prompt-suffix variant
generations fail, since a failing variant is skipped. -/
theorem C7_failure_isolation (core : Core) (input base : List Char) (n : Nat)
    (hn : 2 ≤ n) (hg : Core.generate_command core input = .ok base) :
    (Core.generate_alternatives core input n).map List.length = .ok n := by
  have h0 : ¬n = 0 := by omega
  have h1 : ¬n = 1 := by omega
  have hlen : (altLoop core base n ((variations input).take (n - 1)) [base]).length ≤ n :=
    altLoop_length_le core base n _ [base] (by simp; omega)
  rw [Core.generate_alternatives, if_neg h0, if_neg h1, hg]
  simp only [Except.map]
  rw [List.length_append, List.length_replicate]
  have : (altLoop core base n ((variations input).take (n - 1)) [base]).length
      + (n - (altLoop core base n ((variations input).take (n - 1)) [base]).length) = n := by
    omega
  rw [this]

/-- Witness for C7: a model whose tokenizer fails on every prompt except the base
one, so that all five variant generations fail; the batch still returns a full
sequence of length 3. -/
def failCore : Core where
  encode := fun s => if s = "list".data then .ok [0] else .error "tokenizer failure".data
  model := fun ids => .ok ids
  decode := fun _ => .ok "ls".data

theorem C7_witness :
    Core.generate_command failCore "list".data = .ok "ls".data
    ∧ Core.generate_command failCore ("list".data ++ " verbose".data)
        = .error "tokenizer failure".data
    ∧ (Core.generate_alternatives failCore "list".data 3).map List.length = .ok 3 :=
  ⟨rfl, rfl, C7_failure_isolation failCore "list".data "ls".data 3 (by decide) rfl⟩

/-- main.rs `ModelCache`: the single cached handle (an `Arc<Core>`, modelled as an
abstract handle type `H`) together with the key it was loaded for. -/
structure ModelCache (H : Type) where
  core : Option H
  model_path : List Char
  tokenizer_path : List Char

/-- The cached-handle lookup performed by both the read fast path and the
double-check of main.rs `get_or_load_model`: the handle, if one is cached under
exactly this key. -/
def tryCached {H : Type} (cache : ModelCache H) (model_path tokenizer_path : List Char) :
    Option H :=
  match cache.core with
  | some core =>
    if cache.model_path = model_path ∧ cache.tokenizer_path = tokenizer_path then
      some core
    else
      none
  | none => none

/-- main.rs `get_or_load_model`, sequential semantics: read fast path, then the
write path with its double-check, then the load (`Core::new`, the `load` oracle).
Returns the result, the cache state after the call, and how many load operations
were performed. -/
def get_or_load_model {H : Type}
    (load : List Char → List Char → Except (List Char) H)
    (model_path tokenizer_path : List Char) (cache : ModelCache H) :
    Except (List Char) H × ModelCache H × Nat :=
  match tryCached cache model_path tokenizer_path with
  | some core => (.ok core, cache, 0)
  | none =>
    match tryCached cache model_path tokenizer_path with
    | some core => (.ok core, cache, 0)
    | none =>
      match load model_path tokenizer_path with
      | .error e => (.error ("Failed to load model: ".data ++ e), cache, 1)
      | .ok core => (.ok core, ⟨some core, model_path, tokenizer_path⟩, 1)

/-- Claim C8: if a call to `get_or_load_model` succeeds, an immediately following
call with the same key returns the same underlying handle, leaves the cache
unchanged, and performs zero load operations (`Core::new` is not invoked again). -/
theorem C8_cache_idempotent {H : Type}
    (load : List Char → List Char → Except (List Char) H)
    (model_path tokenizer_path : List Char) (cache cache' : ModelCache H)
    (h : H) (k : Nat)
    (h1 : get_or_load_model load model_path tokenizer_path cache = (.ok h, cache', k)) :
    get_or_load_model load model_path tokenizer_path cache' = (.ok h, cache', 0) := by
  have hcached : tryCached cache' model_path tokenizer_path = some h := by
    rw [get_or_load_model] at h1
    cases htc : tryCached cache model_path tokenizer_path with
    | some core =>
      rw [htc] at h1
      have he : (Except.ok core : Except (List Char) H) = .ok h := congrArg Prod.fst h1
      have hco : core = h := by injection he
      have hc : cache = cache' := congrArg (fun x => x.2.1) h1
      rw [← hc, htc, hco]
    | none =>
      rw [htc] at h1
      cases hld : load model_path tokenizer_path with
      | error e =>
        rw [hld] at h1
        exact absurd (congrArg Prod.fst h1) (by simp)
      | ok core =>
        rw [hld] at h1
        have he : (Except.ok core : Except (List Char) H) = .ok h := congrArg Prod.fst h1
        have hco : core = h := by injection he
        have hc : (⟨some core, model_path, tokenizer_path⟩ : ModelCache H) = cache' :=
          congrArg (fun x => x.2.1) h1
        rw [← hc, tryCached]
        simp [hco]
  rw [get_or_load_model, hcached]

/-- Witness for C8: a concrete loader and an initially empty cache; the first call
loads once, the second returns the cached handle with zero loads. -/
theorem C8_witness :
    get_or_load_model (H := Nat) (fun _ _ => .ok 7) "m".data "t".data
        ⟨none, [], []⟩
      = (.ok 7, ⟨some 7, "m".data, "t".data⟩, 1)
    ∧ get_or_load_model (H := Nat) (fun _ _ => .ok 7) "m".data "t".data
        ⟨some 7, "m".data, "t".data⟩
      = (.ok 7, ⟨some 7, "m".data, "t".data⟩, 0) :=
  ⟨rfl,
    C8_cache_idempotent (fun _ _ => .ok 7) "m".data "t".data ⟨none, [], []⟩
      ⟨some 7, "m".data, "t".data⟩ 7 1 rfl⟩

/-- The observable state of one caller of `get_or_load_model` in the concurrency
model for claim C9: not yet past the read fast path, waiting for the write lock,
or finished holding a handle. -/
inductive ThreadState (H : Type) where
  | start : ThreadState H
  | waitWrite : ThreadState H
  | done : H → ThreadState H
deriving DecidableEq

/-- Global state of the C9 concurrency model: the cache slot for the single
requested key, the number of load operations performed so far, and the state of
each caller. -/
structure SysState (H : Type) where
  cache : Option H
  loads : Nat
  threads : List (ThreadState H)
deriving DecidableEq

/-- Interleaving semantics of main.rs `get_or_load_model` for N callers that all
request the same key while nothing is cached, and whose load succeeds with the
handle `h0` (`Core::new` is deterministic for a fixed key).  The read fast path
is one atomic step (it holds the read lock); the whole write section —
double-check, load, store — is one atomic step because it holds the exclusive
write lock.  `readHit`/`writeHit` observe a cached handle; `readMiss` escalates
to the write path; `writeLoad` finds the double-check empty, performs the load
and fills the slot. -/
inductive CacheStep {H : Type} (h0 : H) : SysState H → SysState H → Prop
  | readHit (s : SysState H) (i : Nat) (h : H)
      (ht : s.threads.get? i = some .start) (hc : s.cache = some h) :
      CacheStep h0 s ⟨s.cache, s.loads, s.threads.set i (.done h)⟩
  | readMiss (s : SysState H) (i : Nat)
      (ht : s.threads.get? i = some .start) (hc : s.cache = none) :
      CacheStep h0 s ⟨none, s.loads, s.threads.set i .waitWrite⟩
  | writeHit (s : SysState H) (i : Nat) (h : H)
      (ht : s.threads.get? i = some .waitWrite) (hc : s.cache = some h) :
      CacheStep h0 s ⟨s.cache, s.loads, s.threads.set i (.done h)⟩
  | writeLoad (s : SysState H) (i : Nat)
      (ht : s.threads.get? i = some .waitWrite) (hc : s.cache = none) :
      CacheStep h0 s ⟨some h0, s.loads + 1, s.threads.set i (.done h0)⟩

/-- The initial state for C9: nothing cached, no load performed, N first-time
callers. -/
def initState (H : Type) (n : Nat) : SysState H :=
  ⟨none, 0, List.replicate n .start⟩

/-- Inductive invariant for C9: thread count is stable; while the cache is empty
no load has happened and nobody is done; once the cache holds a handle it is the
loaded handle `h0`, exactly one load has happened, and every finished thread
holds `h0`. -/
def CacheInv {H : Type} (h0 : H) (n : Nat) (s : SysState H) : Prop :=
  s.threads.length = n
    ∧ (s.cache = none →
        s.loads = 0 ∧ ∀ t ∈ s.threads, t = .start ∨ t = .waitWrite)
    ∧ (∀ h, s.cache = some h →
        h = h0 ∧ s.loads = 1
          ∧ ∀ t ∈ s.threads, t = .start ∨ t = .waitWrite ∨ t = .done h0)

theorem cacheInv_init {H : Type} (h0 : H) (n : Nat) : CacheInv h0 n (initState H n) := by
  refine ⟨by simp [initState], ?_, ?_⟩
  · intro _
    refine ⟨rfl, ?_⟩
    intro t ht
    exact Or.inl (List.eq_of_mem_replicate ht)
  · intro h hcon
    simp [initState] at hcon

theorem cacheInv_step {H : Type} (h0 : H) (n : Nat) (s s' : SysState H)
    (hstep : CacheStep h0 s s') (hinv : CacheInv h0 n s) : CacheInv h0 n s' := by
  obtain ⟨hlen, hnone, hsome⟩ := hinv
  cases hstep with
  | readHit i h ht hc =>
    obtain ⟨hh0, hl1, hall⟩ := hsome h hc
    subst hh0
    refine ⟨by simp [hlen], ?_, ?_⟩
    · intro hcon
      rw [hc] at hcon
      exact Option.noConfusion hcon
    · intro h2 hc2
      rw [hc] at hc2
      injection hc2 with hh2
      subst hh2
      refine ⟨rfl, hl1, ?_⟩
      intro t htm
      rcases List.mem_or_eq_of_mem_set htm with hm | rfl
      · exact hall t hm
      · exact Or.inr (Or.inr rfl)
  | readMiss i ht hc =>
    obtain ⟨hl0, hall⟩ := hnone hc
    refine ⟨by simp [hlen], ?_, ?_⟩
    · intro _
      refine ⟨hl0, ?_⟩
      intro t htm
      rcases List.mem_or_eq_of_mem_set htm with hm | rfl
      · exact hall t hm
      · exact Or.inr rfl
    · intro h2 hc2
      exact Option.noConfusion hc2
  | writeHit i h ht hc =>
    obtain ⟨hh0, hl1, hall⟩ := hsome h hc
    subst hh0
    refine ⟨by simp [hlen], ?_, ?_⟩
    · intro hcon
      rw [hc] at hcon
      exact Option.noConfusion hcon
    · intro h2 hc2
      rw [hc] at hc2
      injection hc2 with hh2
      subst hh2
      refine ⟨rfl, hl1, ?_⟩
      intro t htm
      rcases List.mem_or_eq_of_mem_set htm with hm | rfl
      · exact hall t hm
      · exact Or.inr (Or.inr rfl)
  | writeLoad i ht hc =>
    obtain ⟨hl0, hall⟩ := hnone hc
    refine ⟨by simp [hlen], ?_, ?_⟩
    · intro hcon
      exact Option.noConfusion hcon
    · intro h2 hc2
      injection hc2 with hh2
      subst hh2
      refine ⟨rfl, ?_, ?_⟩
      · show s.loads + 1 = 1
        omega
      intro t htm
      rcases List.mem_or_eq_of_mem_set htm with hm | rfl
      · rcases hall t hm with h | h
        · exact Or.inl h
        · exact Or.inr (Or.inl h)
      · exact Or.inr (Or.inr rfl)

theorem cacheInv_reach {H : Type} (h0 : H) (n : Nat) (s : SysState H)
    (hr : Relation.ReflTransGen (CacheStep h0) (initState H n) s) :
    CacheInv h0 n s := by
  induction hr with
  | refl => exact cacheInv_init h0 n
  | tail hab hstep ih => exact cacheInv_step h0 n _ _ hstep ih

/-- Claim C9: in the interleaving model of main.rs `get_or_load_model`, whenever
N >= 1 parallel first-time callers of the same key have all finished, exactly one
load operation was performed, the cache holds the loaded handle, and every caller
obtained that same handle. -/
theorem C9_single_load {H : Type} (h0 : H) (n : Nat) (s : SysState H)
    (hn : 1 ≤ n)
    (hr : Relation.ReflTransGen (CacheStep h0) (initState H n) s)
    (hdone : ∀ t ∈ s.threads, ∃ h, t = ThreadState.done h) :
    s.loads = 1 ∧ s.cache = some h0
      ∧ ∀ t ∈ s.threads, t = ThreadState.done h0 := by
  obtain ⟨hlen, hnone, hsome⟩ := cacheInv_reach h0 n s hr
  have hne : s.threads ≠ [] := by
    intro he
    rw [he] at hlen
    simp at hlen
    omega
  cases hc : s.cache with
  | none =>
    exfalso
    obtain ⟨-, hall⟩ := hnone hc
    obtain ⟨t, htm⟩ := List.exists_mem_of_ne_nil s.threads hne
    obtain ⟨h, hdn⟩ := hdone t htm
    rcases hall t htm with h1 | h1 <;> rw [h1] at hdn <;> exact ThreadState.noConfusion hdn
  | some h2 =>
    obtain ⟨hh2, hl, hall⟩ := hsome h2 hc
    subst hh2
    refine ⟨hl, rfl, ?_⟩
    intro t htm
    obtain ⟨h, hdn⟩ := hdone t htm
    rcases hall t htm with h1 | h1 | h1
    · rw [h1] at hdn
      exact ThreadState.noConfusion hdn
    · rw [h1] at hdn
      exact ThreadState.noConfusion hdn
    · exact h1

/-- The all-done final state reached in the C9 witness run. -/
def doneState : SysState Nat :=
  ⟨some 5, 1, [.done 5, .done 5]⟩

/-- Witness for C9: two callers, both read-miss while the cache is empty, one
performs the load in its write section, the other hits the double-check; the
completed run has exactly one load. -/
theorem C9_witness : 1 ≤ 2 ∧ doneState.loads = 1 ∧ doneState.cache = some 5 := by
  have hr : Relation.ReflTransGen (CacheStep 5) (initState Nat 2) doneState :=
    Relation.ReflTransGen.head (CacheStep.readMiss _ 0 rfl rfl)
      (Relation.ReflTransGen.head (CacheStep.readMiss _ 1 rfl rfl)
        (Relation.ReflTransGen.head (CacheStep.writeLoad _ 0 rfl rfl)
          (Relation.ReflTransGen.head (CacheStep.writeHit _ 1 5 rfl rfl)
            Relation.ReflTransGen.refl)))
  have hdone : ∀ t ∈ doneState.threads, ∃ h, t = ThreadState.done h := by
    intro t ht
    simp [doneState] at ht
    exact ⟨5, ht⟩
  have h := C9_single_load 5 2 doneState (by decide) hr hdone
  exact ⟨by decide, h.1, h.2.1⟩

/-- The prompt template used by the explain operation. -/
def explainPrefix : List Char :=
  "Explain what this command does: ".data

/-- Modelled from the spec: `Core::explain_command` is invoked on `Core` in
src/src/main.rs but its definition is not among the source files; per the spec it
re-runs the same encode-infer-decode pipeline with the input prompt rewritten to
"Explain what this command does: " + command. -/
def Core.explain_command (self : Core) (command : List Char) :
    Except (List Char) (List Char) :=
  Core.generate_command self (explainPrefix ++ command)

/-- The `Commands::Core` single-command branch of src/src/main.rs (the sequence of
strings printed to stdout): the generated command is printed only if
`Validation.is_safe_command` accepts it; with `--explain`, the explanation text is
then printed as-is — it is never passed through the validator. -/
def coreCommandOutput (core : Core) (explainFlag : Bool) (prompt : List Char) :
    List (List Char) :=
  match Core.generate_command core prompt with
  | .error _ => []
  | .ok command =>
    if Validation.is_safe_command command then
      command ::
        (if explainFlag then
          match Core.explain_command core command with
          | .ok explanation => [explanation]
          | .error _ => []
        else [])
    else []

/-- Claim C10: `explain_command` re-runs the generation pipeline on the rewritten
prompt "Explain what this command does: " + command, and its output is displayed
without ever being passed through the CommandValidator — the display is unchanged
even when the explanation text itself fails validation. -/
theorem C10_explain_pipeline (core : Core) (prompt command explanation : List Char)
    (hg : Core.generate_command core prompt = .ok command)
    (hsafe : Validation.is_safe_command command = true)
    (hex : Core.explain_command core command = .ok explanation)
    (hrejected : Validation.is_safe_command explanation = false) :
    Core.explain_command core command
      = Core.generate_command core (explainPrefix ++ command)
    ∧ coreCommandOutput core true prompt = [command, explanation] := by
  refine ⟨rfl, ?_⟩
  rw [coreCommandOutput, hg]
  simp [hsafe, hex]

/-- Witness for C10: a model that generates "ls" for the prompt and an unsafe
explanation text for the rewritten explain prompt; the explanation is displayed
although the validator rejects it. -/
def explCore : Core where
  encode := fun s => .ok (if s = "show files".data then [0] else [1])
  model := fun ids => .ok ids
  decode := fun ids => .ok (if ids = [0] then "ls".data else "it lists; nothing".data)

theorem C10_witness :
    Core.generate_command explCore "show files".data = .ok "ls".data
    ∧ Validation.is_safe_command "ls".data = true
    ∧ Core.explain_command explCore "ls".data = .ok "it lists; nothing".data
    ∧ Validation.is_safe_command "it lists; nothing".data = false
    ∧ coreCommandOutput explCore true "show files".data
        = ["ls".data, "it lists; nothing".data] :=
  ⟨rfl, by decide, rfl, by decide,
    (C10_explain_pipeline explCore "show files".data "ls".data "it lists; nothing".data
      rfl (by decide) rfl (by decide)).2⟩
